import Mathlib

/-!
Verification of the quality-control and packaging system
(`models.py`, `settings.py`, `quality_control_system.py`).

The Python code is shallowly embedded:
  * `Item` and `Box` mirror the classes in `models.py`; Python floats are
    modelled as exact rationals, Python's `str.lower().strip()` as
    `String.toLower` / `String.trim`.
  * The module-level globals of `quality_control_system.py`
    (`items`, `approved_items_ids`, `not_approved_items_ids`,
    `closed_boxes`, `open_box`) are gathered into a state record `St`;
    the Python dict is modelled as an insertion-ordered association list.
  * The persisted files are modelled by `Disk`: the `box_*.json` files as a
    list of box records kept in ascending-id (= file-name) order, and
    `reprovadas.json` as a list of items.  `save_box` overwrites the record
    with the same id.  The JSON encode/decode layer (`to_dict`/`from_dict`)
    is treated separately (`ItemD`/`BoxD` below); the disk stores box values
    directly, which is faithful for records the system itself writes.
  * Each mutating Python function becomes a pure function from
    state × disk to state × disk.
-/

/-! ## Settings (`settings.py`) -/

def MIN_WEIGHT : ℚ := 95
def MAX_WEIGHT : ℚ := 105
def MIN_LENGTH : ℚ := 10
def MAX_LENGTH : ℚ := 20
def ALLOWED_COLORS : List String := ["azul", "verde"]
def BOX_CAPACITY : ℕ := 10

/-! ## Data model (`models.py`) -/

/-- Whitespace characters stripped by Python's `str.strip()`. -/
def isSpaceChar (c : Char) : Bool :=
  c = ' ' || c = '\t' || c = '\n' || c = '\r' || c = '\x0b' || c = '\x0c'

/-- Strip leading and trailing whitespace from a character list. -/
def stripChars (l : List Char) : List Char :=
  ((l.dropWhile isSpaceChar).reverse.dropWhile isSpaceChar).reverse

/-- Python's `color.lower().strip()` applied by `Item.__init__`:
lowercase every character, then strip surrounding whitespace. -/
def normColor (c : String) : String :=
  String.mk (stripChars (c.data.map Char.toLower))

structure Item where
  id : String
  weight : ℚ
  color : String
  length : ℚ
  approved : Bool
  failure_reasons : List String
deriving DecidableEq, Repr

/-- `Item.__init__`: normalizes the color, defaults `approved=False`
and `failure_reasons=[]` (`failure_reasons or []`). -/
def Item.make (id : String) (weight : ℚ) (color : String) (length : ℚ)
    (approved : Bool := false) (failure_reasons : List String := []) : Item :=
  ⟨id, weight, normColor color, length, approved, failure_reasons⟩

structure Box where
  id : ℕ
  closed : Bool
  items : List Item
deriving DecidableEq, Repr

/-- `Box.full`: `len(self.items) >= BOX_CAPACITY`. -/
def Box.full (b : Box) : Bool := decide (BOX_CAPACITY ≤ b.items.length)

/-! ## Dictionary model (Python `dict`, insertion ordered) -/

def dictGet (k : String) : List (String × Item) → Option Item
  | [] => none
  | (k', v) :: rest => if k' = k then some v else dictGet k rest

def dictSet (k : String) (v : Item) : List (String × Item) → List (String × Item)
  | [] => [(k, v)]
  | (k', v') :: rest =>
      if k' = k then (k, v) :: rest else (k', v') :: dictSet k v rest

def dictDel (k : String) : List (String × Item) → List (String × Item)
  | [] => []
  | (k', v') :: rest => if k' = k then rest else (k', v') :: dictDel k rest

/-- Remove the first occurrence of `x` (Python `list.remove`). -/
def eraseFirst {α : Type} [DecidableEq α] (x : α) : List α → List α
  | [] => []
  | y :: ys => if y = x then ys else y :: eraseFirst x ys

/-! ## In-memory state and disk -/

structure St where
  items : List (String × Item)
  approved_ids : List String
  rejected_ids : List String
  closed_boxes : List Box
  open_box : Box
deriving DecidableEq, Repr

structure Disk where
  boxes : List Box
  rejects : List Item
deriving DecidableEq, Repr

/-- Record-store write for one box file: overwrite the record with the same
id, otherwise insert keeping ascending-id (file-name) order. -/
def saveBoxD (b : Box) : List Box → List Box
  | [] => [b]
  | c :: cs =>
      if b.id < c.id then b :: c :: cs
      else if b.id = c.id then b :: cs
      else c :: saveBoxD b cs

/-- `save_box`. -/
def save_box (b : Box) (d : Disk) : Disk := { d with boxes := saveBoxD b d.boxes }

/-- Look up the persisted record for a box id. -/
def diskGet (k : ℕ) : List Box → Option Box
  | [] => none
  | c :: cs => if c.id = k then some c else diskGet k cs

/-- `save_rejects`: payload `[items[pid] for pid in not_approved_items_ids]`
(under the system invariant every lookup succeeds). -/
def save_rejects (s : St) (d : Disk) : Disk :=
  { d with rejects := s.rejected_ids.filterMap (fun pid => dictGet pid s.items) }

/-! ## Evaluator (`evaluate_item`) -/

def weightOk (w : ℚ) : Bool := decide (MIN_WEIGHT ≤ w ∧ w ≤ MAX_WEIGHT)
def colorOk (c : String) : Bool := decide (c ∈ ALLOWED_COLORS)
def lengthOk (l : ℚ) : Bool := decide (MIN_LENGTH ≤ l ∧ l ≤ MAX_LENGTH)

/-- `evaluate_item`: three independent checks, reasons accumulated in check
order, approved iff no reason. -/
def evaluate_item (it : Item) : Item :=
  let reasons : List String :=
    (if weightOk it.weight then [] else ["Peso fora da faixa"]) ++
    (if colorOk it.color then [] else ["Cor inválida"]) ++
    (if lengthOk it.length then [] else ["Comprimento fora da faixa"])
  if reasons = [] then { it with approved := true, failure_reasons := [] }
  else { it with approved := false, failure_reasons := reasons }

/-! ## Packer (`store_item`) -/

def store_item (it : Item) (s : St) (d : Disk) : St × Disk :=
  let ob : Box := { s.open_box with items := s.open_box.items ++ [it] }
  if ob.full then
    let obClosed : Box := { ob with closed := true }
    let d1 := save_box obClosed d
    let newBox : Box := ⟨ob.id + 1, false, []⟩
    ({ s with closed_boxes := s.closed_boxes ++ [obClosed], open_box := newBox },
     save_box newBox d1)
  else
    ({ s with open_box := ob }, save_box ob d)

/-! ## Registration (`register_item`, after input parsing) -/

def register_item (id : String) (w : ℚ) (c : String) (l : ℚ)
    (s : St) (d : Disk) : St × Disk :=
  if id = "" then (s, d)
  else if (dictGet id s.items).isSome then (s, d)
  else
    let it := evaluate_item (Item.make id w c l)
    let s1 : St := { s with items := dictSet id it s.items }
    if it.approved then
      let s2 : St := { s1 with approved_ids := s1.approved_ids ++ [id] }
      store_item it s2 d
    else
      let s2 : St := { s1 with rejected_ids := s1.rejected_ids ++ [id] }
      (s2, save_rejects s2 d)

/-! ## Removal (`remove_item`) -/

/-- The closed-box search of `remove_item`: remove the item from the first
closed box containing it and persist that box. -/
def removeFromClosed (it : Item) : List Box → Disk → List Box × Disk
  | [], d => ([], d)
  | b :: bs, d =>
      if it ∈ b.items then
        let b' : Box := { b with items := eraseFirst it b.items }
        (b' :: bs, save_box b' d)
      else
        let r := removeFromClosed it bs d
        (b :: r.1, r.2)

def remove_item (id : String) (s : St) (d : Disk) : St × Disk :=
  match dictGet id s.items with
  | none => (s, d)
  | some it =>
    if it.approved then
      let p :=
        if it ∈ s.open_box.items then
          let ob : Box := { s.open_box with items := eraseFirst it s.open_box.items }
          (({ s with open_box := ob }, save_box ob d) : St × Disk)
        else
          let r := removeFromClosed it s.closed_boxes d
          ({ s with closed_boxes := r.1 }, r.2)
      let s2 : St :=
        if id ∈ p.1.approved_ids then
          { p.1 with approved_ids := eraseFirst id p.1.approved_ids }
        else p.1
      ({ s2 with items := dictDel id s2.items }, p.2)
    else
      let p :=
        if id ∈ s.rejected_ids then
          let s' : St := { s with rejected_ids := eraseFirst id s.rejected_ids }
          ((s', save_rejects s' d) : St × Disk)
        else (s, d)
      ({ p.1 with items := dictDel id p.1.items }, p.2)

/-! ## State reconstruction (`load_boxes`, `load_state`) -/

/-- One step of Python's stable `sorted(..., key=lambda b: b.id)`:
insert after all elements whose id is `≤` the new one. -/
def insertByIdStable (b : Box) : List Box → List Box
  | [] => [b]
  | c :: cs => if b.id < c.id then b :: c :: cs else c :: insertByIdStable b cs

def sortBoxes (l : List Box) : List Box :=
  l.foldl (fun acc b => insertByIdStable b acc) []

/-- `max(b.id for b in boxes)` (for nonempty lists of `ℕ` ids). -/
def maxId (l : List Box) : ℕ := l.foldl (fun m b => max m b.id) 0

/-- `load_boxes`, as a function of the parsable records in file order.
Returns `((closed collection, open box), records left on disk)`; the open
component keeps the declared `Box | None` type. -/
def load_boxes (recs : List Box) : (List Box × Option Box) × List Box :=
  if recs.isEmpty then
    let nb : Box := ⟨1, false, []⟩
    (([], some nb), saveBoxD nb recs)
  else
    let cands := recs.filter (fun b => !b.closed)
    let closed := sortBoxes (recs.filter (fun b => b.closed))
    match (sortBoxes cands).getLast? with
    | some ob => ((closed, some ob), recs)
    | none =>
        let nb : Box := ⟨maxId recs + 1, false, []⟩
        ((closed, some nb), saveBoxD nb recs)

/-- The indexing loop of `load_state` over `closed_boxes + [open_box]`:
builds the id→item map and the approved-ids order. -/
def indexBoxes (bs : List Box) : List (String × Item) × List String :=
  bs.foldl
    (fun acc b =>
      b.items.foldl
        (fun acc2 it =>
          (dictSet it.id it acc2.1,
           if it.approved then acc2.2 ++ [it.id] else acc2.2))
        acc)
    ([], [])

/-- `load_state`: rebuild the whole in-memory state from disk.  The `none`
branch mirrors the `Box | None` annotation of the global `open_box`; it is
proved unreachable below. -/
def load_state (d : Disk) : Option St × Disk :=
  match load_boxes d.boxes with
  | ((closed, some ob), boxes') =>
      let idx := indexBoxes (closed ++ [ob])
      let items1 := d.rejects.foldl (fun m it => dictSet it.id it m) idx.1
      (some ⟨items1, idx.2, d.rejects.map (fun it => it.id), closed, ob⟩,
       ⟨boxes', d.rejects⟩)
  | ((_, none), boxes') => (none, ⟨boxes', d.rejects⟩)

/-! ## Serialization (`Item.to_dict`/`from_dict`, `Box.to_dict`/`from_dict`) -/

/-- The dictionary produced by `Item.to_dict` (exactly these keys). -/
structure ItemD where
  id : String
  weight : ℚ
  color : String
  length : ℚ
  approved : Bool
  failure_reasons : List String
deriving DecidableEq, Repr

def Item.to_dict (it : Item) : ItemD :=
  ⟨it.id, it.weight, it.color, it.length, it.approved, it.failure_reasons⟩

/-- `Item.from_dict` goes through the constructor, hence re-normalizes. -/
def Item.from_dict (d : ItemD) : Item :=
  Item.make d.id d.weight d.color d.length d.approved d.failure_reasons

structure BoxD where
  id : ℕ
  closed : Bool
  items : List ItemD
deriving DecidableEq, Repr

def Box.to_dict (b : Box) : BoxD :=
  ⟨b.id, b.closed, b.items.map Item.to_dict⟩

def Box.from_dict (d : BoxD) : Box :=
  ⟨d.id, d.closed, d.items.map Item.from_dict⟩

/-! ## System invariant (spec §3) -/

def allBoxes (s : St) : List Box := s.closed_boxes ++ [s.open_box]

/-- Number of boxes (open or closed) containing the item `x`. -/
def boxCount (x : Item) (s : St) : ℕ :=
  (allBoxes s).countP (fun b => decide (x ∈ b.items))

/-- The §3 system-state invariant: approved ids resolve to approved items
present in exactly one box; rejected ids resolve to non-approved items;
no rejected id is the id of an item sitting in a box. -/
def SysInv (s : St) : Prop :=
  (∀ id ∈ s.approved_ids, ∃ it, dictGet id s.items = some it ∧
      it.approved = true ∧ boxCount it s = 1) ∧
  (∀ id ∈ s.rejected_ids, ∃ it, dictGet id s.items = some it ∧
      it.approved = false) ∧
  (∀ id ∈ s.rejected_ids, ∀ b ∈ allBoxes s, ∀ x ∈ b.items, x.id ≠ id)

/-- Well-formedness of the in-memory indexes (the §3 data model: the item
map holds one authoritative entry per item): map keys match item ids, every
boxed item is in the map, and the two id orders are duplicate-free. -/
def WF (s : St) : Prop :=
  (∀ k it, dictGet k s.items = some it → it.id = k) ∧
  (∀ b ∈ allBoxes s, ∀ x ∈ b.items, (dictGet x.id s.items).isSome = true) ∧
  s.approved_ids.Nodup ∧ s.rejected_ids.Nodup

/-! ## Concrete sample values (used in witness and counterexample theorems) -/

def c1Item : Item := ⟨"p1", 100, "azul", 15, true, []⟩
def c1St : St := ⟨[("p1", c1Item)], ["p1"], [], [], ⟨1, false, []⟩⟩
def c1Disk : Disk := ⟨[⟨1, false, []⟩], []⟩

def c3Recs : List Box := [⟨1, true, []⟩, ⟨2, false, []⟩, ⟨3, true, []⟩]

def c4Item : Item := ⟨"x", 100, "azul", 15, true, []⟩
def c4Disk : Disk := ⟨[⟨1, false, [c4Item]⟩, ⟨2, false, []⟩], []⟩

def c5Item : Item := ⟨"q1", 100, "azul", 15, true, []⟩
def c5St : St :=
  ⟨[("q1", c5Item)], ["q1"], [], [⟨1, true, [c5Item]⟩], ⟨2, false, []⟩⟩
def c5Disk : Disk := ⟨[⟨1, true, [c5Item]⟩, ⟨2, false, []⟩], []⟩

def c6Item : Item := ⟨"b", 100, "azul", 15, true, []⟩
def c6St : St := ⟨[("b", c6Item)], ["b"], [], [], ⟨1, false, [c6Item]⟩⟩
def c6Disk : Disk := ⟨[⟨1, false, [c6Item]⟩], []⟩

def c7St : St := ⟨[], [], [], [], ⟨1, false, []⟩⟩
def c7Disk : Disk := ⟨[⟨1, false, []⟩], []⟩
def c7Item : Item := ⟨"n1", 100, "azul", 15, true, []⟩

def c9Item : Item := ⟨"a", 100, "azul", 15, true, []⟩
def c9Box : Box := ⟨1, true, [c9Item]⟩

/-! ## Helper lemmas -/

lemma evaluate_item_eq (it : Item) :
    evaluate_item it =
      { it with
        approved := weightOk it.weight && colorOk it.color && lengthOk it.length,
        failure_reasons :=
          (if weightOk it.weight then [] else ["Peso fora da faixa"]) ++
          (if colorOk it.color then [] else ["Cor inválida"]) ++
          (if lengthOk it.length then [] else ["Comprimento fora da faixa"]) } := by
  unfold evaluate_item
  cases hw : weightOk it.weight <;> cases hc : colorOk it.color <;>
    cases hl : lengthOk it.length <;> simp [hw, hc, hl]

lemma diskGet_saveBoxD (b : Box) (l : List Box) (k : ℕ) :
    diskGet k (saveBoxD b l) = if b.id = k then some b else diskGet k l := by
  induction l with
  | nil => simp [saveBoxD, diskGet]
  | cons c cs ih =>
      unfold saveBoxD
      rcases Nat.lt_trichotomy b.id c.id with h1 | h1 | h1
      · rw [if_pos h1]
        unfold diskGet
        by_cases hk : b.id = k
        · rw [if_pos hk, if_pos hk]
        · rw [if_neg hk, if_neg hk]; simp [diskGet]
      · rw [if_neg (by omega), if_pos h1]
        unfold diskGet
        by_cases hk : b.id = k
        · rw [if_pos hk, if_pos hk]
        · rw [if_neg hk, if_neg hk, if_neg (show ¬ c.id = k by omega)]
      · rw [if_neg (by omega), if_neg (by omega)]
        unfold diskGet
        by_cases hck : c.id = k
        · rw [if_pos hck, if_neg (show ¬ b.id = k by omega), if_pos hck]
        · rw [if_neg hck, if_neg hck, ih]

/-! ## C2: the evaluator -/

/-- C2: evaluation is deterministic and side-effect-free on the item's
attributes (id, weight, color, length are unchanged), performs the three
independent checks in the fixed order weight-range, allowed-color (on the
constructor-normalized color), length-range with none short-circuiting,
accumulates one reason per failed check preserving that order, and approves
iff zero reasons were accumulated; re-evaluation is idempotent. -/
theorem evaluate_item_correct (id : String) (w : ℚ) (c : String) (l : ℚ) (it : Item) :
    (evaluate_item it).id = it.id ∧
    (evaluate_item it).weight = it.weight ∧
    (evaluate_item it).color = it.color ∧
    (evaluate_item it).length = it.length ∧
    (evaluate_item it).failure_reasons =
      (if weightOk it.weight then [] else ["Peso fora da faixa"]) ++
      (if colorOk it.color then [] else ["Cor inválida"]) ++
      (if lengthOk it.length then [] else ["Comprimento fora da faixa"]) ∧
    ((evaluate_item it).approved = true ↔ (evaluate_item it).failure_reasons = []) ∧
    ((evaluate_item it).approved = true ↔
      weightOk it.weight = true ∧ colorOk it.color = true ∧ lengthOk it.length = true) ∧
    evaluate_item (evaluate_item it) = evaluate_item it ∧
    (evaluate_item (Item.make id w c l)).color = normColor c ∧
    (evaluate_item (Item.make id w c l)).weight = w ∧
    (evaluate_item (Item.make id w c l)).length = l ∧
    (evaluate_item (Item.make id w c l)).id = id := by
  cases hw : weightOk it.weight <;> cases hc : colorOk it.color <;>
    cases hl : lengthOk it.length <;>
    simp [evaluate_item_eq, Item.make, hw, hc, hl]

/-! ## C9: serialization round trip -/

/-- C9: for an item whose color is already normalized,
`Item.from_dict (Item.to_dict it) = it`; consequently for a box of such
items, `Box.from_dict (Box.to_dict b) = b` (same id, closed flag and item
sequence in order). -/
theorem serialization_round_trip (it : Item) (b : Box)
    (h1 : normColor it.color = it.color)
    (h2 : ∀ x ∈ b.items, normColor x.color = x.color) :
    Item.from_dict (Item.to_dict it) = it ∧ Box.from_dict (Box.to_dict b) = b := by
  have hitem : ∀ x : Item, normColor x.color = x.color →
      Item.from_dict (Item.to_dict x) = x := by
    intro x hx
    simp [Item.from_dict, Item.to_dict, Item.make, hx]
  have hlist : ∀ lst : List Item, (∀ x ∈ lst, normColor x.color = x.color) →
      lst.map (fun x => Item.from_dict (Item.to_dict x)) = lst := by
    intro lst hl
    induction lst with
    | nil => rfl
    | cons a as ih =>
        rw [List.map_cons, hitem a (hl a (List.mem_cons_self a as)),
            ih (fun x hx => hl x (List.mem_cons_of_mem a hx))]
  refine ⟨hitem it h1, ?_⟩
  rcases b with ⟨bid, bcl, bits⟩
  simp only [Box.from_dict, Box.to_dict, List.map_map]
  simpa using hlist bits h2

/-- Witness for C9 at a concrete item and box. -/
theorem serialization_round_trip_witness :
    normColor c9Item.color = c9Item.color ∧
    (Item.from_dict (Item.to_dict c9Item) = c9Item ∧
     Box.from_dict (Box.to_dict c9Box) = c9Box) :=
  ⟨by decide, serialization_round_trip c9Item c9Box (by decide) (by decide)⟩

/-! ## C6: mutation-time errors leave the state unchanged -/

/-- C6: removing an id absent from the item index leaves state and disk
unchanged (NotFound); registering an id already present in the item index is
rejected with no state or disk change. -/
theorem mutation_errors_frame (s : St) (d : Disk) (idA idB : String)
    (w : ℚ) (c : String) (l : ℚ)
    (hA : dictGet idA s.items = none)
    (hB : (dictGet idB s.items).isSome = true) :
    remove_item idA s d = (s, d) ∧ register_item idB w c l s d = (s, d) := by
  constructor
  · unfold remove_item
    rw [hA]
  · unfold register_item
    rw [hB]
    split <;> simp

/-- Witness for C6 at a concrete state: id "zz" is absent, id "b" present. -/
theorem mutation_errors_frame_witness :
    dictGet "zz" c6St.items = none ∧
    (dictGet "b" c6St.items).isSome = true ∧
    (remove_item "zz" c6St c6Disk = (c6St, c6Disk) ∧
     register_item "b" 100 "azul" 15 c6St c6Disk = (c6St, c6Disk)) :=
  ⟨by decide, by decide,
   mutation_errors_frame c6St c6Disk "zz" "b" 100 "azul" 15 (by decide) (by decide)⟩

/-! ## C10: the open box is never missing -/

lemma load_boxes_isSome (recs : List Box) :
    ((load_boxes recs).1.2).isSome = true := by
  unfold load_boxes
  split
  · rfl
  · cases h : (sortBoxes (recs.filter (fun b => !b.closed))).getLast? <;> simp [h]

/-- C10: although the declared return type admits a missing open box,
`load_boxes` produces one on every path, and hence `load_state` always
yields a fully-formed state on which the open-box dereferences of store,
removal and reporting are defined. -/
theorem open_box_never_none (recs : List Box) (d : Disk) :
    ((load_boxes recs).1.2).isSome = true ∧ ((load_state d).1).isSome = true := by
  refine ⟨load_boxes_isSome recs, ?_⟩
  unfold load_state
  have h := load_boxes_isSome d.boxes
  rcases hlb : load_boxes d.boxes with ⟨⟨closed, ob?⟩, boxes'⟩
  rw [hlb] at h
  cases ob? with
  | none => simp at h
  | some ob => simp

/-! ## C1: the packer -/

/-- C1: storing an approved item appends it to the open box; if that makes
the box reach capacity it is closed, persisted, moved to the closed-box
collection and a fresh empty open box with successor id is created and
persisted; otherwise the still-open box is persisted as-is.  Afterwards the
previously-open box's persisted record equals its in-memory content and the
open-box reference points at a non-full, non-closed box. -/
theorem store_item_spec (it : Item) (s : St) (d : Disk)
    (hopen : s.open_box.closed = false)
    (hlen : s.open_box.items.length < BOX_CAPACITY) :
    ((store_item it s d).1.open_box.closed = false ∧
     (store_item it s d).1.open_box.full = false) ∧
    (∃ b, (b = (store_item it s d).1.open_box ∨ b ∈ (store_item it s d).1.closed_boxes) ∧
       b.id = s.open_box.id ∧
       diskGet s.open_box.id (store_item it s d).2.boxes = some b) ∧
    (s.open_box.items.length + 1 = BOX_CAPACITY →
       (store_item it s d).1.closed_boxes =
         s.closed_boxes ++ [⟨s.open_box.id, true, s.open_box.items ++ [it]⟩] ∧
       (store_item it s d).1.open_box = ⟨s.open_box.id + 1, false, []⟩ ∧
       diskGet s.open_box.id (store_item it s d).2.boxes =
         some ⟨s.open_box.id, true, s.open_box.items ++ [it]⟩ ∧
       diskGet (s.open_box.id + 1) (store_item it s d).2.boxes =
         some (⟨s.open_box.id + 1, false, []⟩ : Box)) ∧
    (s.open_box.items.length + 1 ≠ BOX_CAPACITY →
       (store_item it s d).1.closed_boxes = s.closed_boxes ∧
       (store_item it s d).1.open_box = ⟨s.open_box.id, false, s.open_box.items ++ [it]⟩ ∧
       diskGet s.open_box.id (store_item it s d).2.boxes =
         some (⟨s.open_box.id, false, s.open_box.items ++ [it]⟩ : Box)) := by
  rcases s with ⟨sIts, sAp, sRej, sCl, ⟨oid, ocl, oits⟩⟩
  obtain rfl : ocl = false := hopen
  have hlen' : oits.length < BOX_CAPACITY := hlen
  clear hlen
  unfold store_item save_box
  dsimp only
  split
  case isTrue hf =>
    have hlen2 : oits.length + 1 = BOX_CAPACITY := by
      simp [Box.full] at hf
      omega
    refine ⟨⟨rfl, rfl⟩, ?_, ?_, ?_⟩
    · refine ⟨⟨oid, true, oits ++ [it]⟩, Or.inr (by simp), rfl, ?_⟩
      rw [diskGet_saveBoxD, if_neg (by dsimp only; omega), diskGet_saveBoxD,
          if_pos rfl]
    · intro _
      refine ⟨rfl, rfl, ?_, ?_⟩
      · rw [diskGet_saveBoxD, if_neg (by dsimp only; omega), diskGet_saveBoxD,
            if_pos rfl]
      · rw [diskGet_saveBoxD, if_pos rfl]
    · intro hne
      exact absurd hlen2 hne
  case isFalse hf =>
    have hlen2 : oits.length + 1 ≠ BOX_CAPACITY := by
      simp [Box.full] at hf
      omega
    refine ⟨⟨rfl, ?_⟩, ?_, ?_, ?_⟩
    · simp [Box.full] at hf ⊢
      omega
    · exact ⟨⟨oid, false, oits ++ [it]⟩, Or.inl rfl, rfl,
        by rw [diskGet_saveBoxD, if_pos rfl]⟩
    · intro h
      exact absurd h hlen2
    · intro _
      exact ⟨rfl, rfl, by rw [diskGet_saveBoxD, if_pos rfl]⟩

/-- Witness for C1 at a concrete state with an empty open box. -/
theorem store_item_spec_witness :
    c1St.open_box.closed = false ∧ c1St.open_box.items.length < BOX_CAPACITY ∧
    ((store_item c1Item c1St c1Disk).1.open_box.closed = false ∧
     (store_item c1Item c1St c1Disk).1.open_box.full = false) :=
  ⟨by decide, by decide, (store_item_spec c1Item c1St c1Disk (by decide) (by decide)).1⟩

/-! ## Sorting helpers for `load_boxes` -/

lemma mem_insertByIdStable (b x : Box) (l : List Box) :
    x ∈ insertByIdStable b l ↔ x = b ∨ x ∈ l := by
  induction l with
  | nil => simp [insertByIdStable]
  | cons c cs ih =>
      by_cases h : b.id < c.id <;> simp [insertByIdStable, h, ih] <;> tauto

lemma sorted_insertByIdStable (b : Box) (l : List Box)
    (h : l.Pairwise (fun a c => a.id ≤ c.id)) :
    (insertByIdStable b l).Pairwise (fun a c => a.id ≤ c.id) := by
  induction l with
  | nil => simp [insertByIdStable]
  | cons c cs ih =>
      rcases List.pairwise_cons.mp h with ⟨hc, hcs⟩
      unfold insertByIdStable
      by_cases hlt : b.id < c.id
      · rw [if_pos hlt]
        refine List.pairwise_cons.mpr ⟨?_, h⟩
        intro y hy
        rcases List.mem_cons.mp hy with rfl | hy'
        · omega
        · exact le_trans (le_of_lt hlt) (hc y hy')
      · rw [if_neg hlt]
        refine List.pairwise_cons.mpr ⟨?_, ih hcs⟩
        intro y hy
        rcases (mem_insertByIdStable b y cs).mp hy with rfl | hy'
        · omega
        · exact hc y hy'

lemma mem_foldl_insert (l : List Box) (acc : List Box) (x : Box) :
    x ∈ l.foldl (fun a b => insertByIdStable b a) acc ↔ x ∈ acc ∨ x ∈ l := by
  induction l generalizing acc with
  | nil => simp
  | cons c cs ih =>
      rw [List.foldl_cons, ih, mem_insertByIdStable]
      simp only [List.mem_cons]
      tauto

lemma sorted_foldl_insert (l : List Box) (acc : List Box)
    (h : acc.Pairwise (fun a c => a.id ≤ c.id)) :
    (l.foldl (fun a b => insertByIdStable b a) acc).Pairwise
      (fun a c => a.id ≤ c.id) := by
  induction l generalizing acc with
  | nil => exact h
  | cons c cs ih => exact ih _ (sorted_insertByIdStable c acc h)

lemma mem_sortBoxes (l : List Box) (x : Box) : x ∈ sortBoxes l ↔ x ∈ l := by
  unfold sortBoxes
  rw [mem_foldl_insert]
  simp

lemma sorted_sortBoxes (l : List Box) :
    (sortBoxes l).Pairwise (fun a c => a.id ≤ c.id) :=
  sorted_foldl_insert l [] (by simp)

lemma sortBoxes_eq_nil (l : List Box) : sortBoxes l = [] ↔ l = [] := by
  constructor
  · intro h
    cases l with
    | nil => rfl
    | cons c cs =>
        exfalso
        have : c ∈ sortBoxes (c :: cs) := (mem_sortBoxes _ c).mpr (by simp)
        rw [h] at this
        simp at this
  · intro h
    subst h
    rfl

lemma getLast?_mem_max (l : List Box) (x : Box)
    (hs : l.Pairwise (fun a c => a.id ≤ c.id)) (h : l.getLast? = some x) :
    x ∈ l ∧ ∀ y ∈ l, y.id ≤ x.id := by
  induction l with
  | nil => simp at h
  | cons c cs ih =>
      rcases List.pairwise_cons.mp hs with ⟨hc, hcs⟩
      cases cs with
      | nil =>
          rw [List.getLast?_singleton] at h
          obtain rfl : c = x := by injection h
          exact ⟨by simp, by intro y hy; simp at hy; subst hy; exact le_refl _⟩
      | cons c2 cs2 =>
          rw [List.getLast?_cons_cons] at h
          have hin := ih hcs h
          refine ⟨List.mem_cons_of_mem c hin.1, ?_⟩
          intro y hy
          rcases List.mem_cons.mp hy with rfl | hy'
          · exact hc x hin.1
          · exact hin.2 y hy'

lemma le_foldl_max (l : List Box) (a : ℕ) :
    a ≤ l.foldl (fun m bb => max m bb.id) a := by
  induction l generalizing a with
  | nil => exact le_refl a
  | cons c cs ih => exact le_trans (le_max_left a c.id) (ih (max a c.id))

lemma foldl_max_le_of_mem (l : List Box) (a : ℕ) (b : Box) (hb : b ∈ l) :
    b.id ≤ l.foldl (fun m bb => max m bb.id) a := by
  induction l generalizing a with
  | nil => simp at hb
  | cons c cs ih =>
      rw [List.foldl_cons]
      rcases List.mem_cons.mp hb with rfl | hb'
      · exact le_trans (le_max_right a b.id) (le_foldl_max cs _)
      · exact ih _ hb'

lemma le_maxId (l : List Box) (b : Box) (hb : b ∈ l) : b.id ≤ maxId l :=
  foldl_max_le_of_mem l 0 b hb

/-! ## C3: state reconstruction selects the open box -/

/-- C3: with no parsable record, box 1 (open, empty) is synthesized and
persisted; with at least one record having `closed = false`, the open box is
the largest-id such record and the disk is untouched; with all records
closed, a fresh open empty box with id `max + 1` is synthesized and
persisted.  The closed collection is exactly the records with
`closed = true`, in ascending id order. -/
theorem load_boxes_reconstruction (recs : List Box) :
    (∀ b, b ∈ (load_boxes recs).1.1 ↔ b ∈ recs ∧ b.closed = true) ∧
    ((load_boxes recs).1.1).Pairwise (fun a c => a.id ≤ c.id) ∧
    (recs = [] →
       (load_boxes recs).1.2 = some ⟨1, false, []⟩ ∧
       (load_boxes recs).2 = [⟨1, false, []⟩]) ∧
    (∀ b0 ∈ recs, b0.closed = false →
       ∃ ob, (load_boxes recs).1.2 = some ob ∧ ob ∈ recs ∧ ob.closed = false ∧
         (∀ b ∈ recs, b.closed = false → b.id ≤ ob.id) ∧
         (load_boxes recs).2 = recs) ∧
    (recs ≠ [] → (∀ b ∈ recs, b.closed = true) →
       (load_boxes recs).1.2 = some ⟨maxId recs + 1, false, []⟩ ∧
       diskGet (maxId recs + 1) (load_boxes recs).2 =
         some (⟨maxId recs + 1, false, []⟩ : Box) ∧
       (∀ k, k ≠ maxId recs + 1 → diskGet k (load_boxes recs).2 = diskGet k recs) ∧
       (∀ b ∈ recs, b.id < maxId recs + 1)) := by
  by_cases hre : recs = []
  · subst hre
    refine ⟨?_, ?_, fun _ => ⟨rfl, rfl⟩, ?_, ?_⟩
    · intro b
      rw [show (load_boxes ([] : List Box)).1.1 = [] from rfl]
      simp
    · rw [show (load_boxes ([] : List Box)).1.1 = [] from rfl]
      exact List.Pairwise.nil
    · intro b0 h
      simp at h
    · intro h
      exact absurd rfl h
  · unfold load_boxes
    dsimp only
    split
    next h => exact absurd (List.isEmpty_iff.mp h) hre
    next h =>
      split
      next ob hl =>
        have hfacts := getLast?_mem_max _ ob (sorted_sortBoxes _) hl
        have hcand : ob ∈ recs.filter (fun b => !b.closed) :=
          (mem_sortBoxes _ ob).mp hfacts.1
        rcases List.mem_filter.mp hcand with ⟨hobrec, hobop⟩
        have hobop' : ob.closed = false := by
          cases hcl : ob.closed
          · rfl
          · rw [hcl] at hobop; simp at hobop
        refine ⟨?_, sorted_sortBoxes _, fun he => absurd he hre, ?_, ?_⟩
        · intro b
          rw [mem_sortBoxes, List.mem_filter]
        · intro b0 _ _
          refine ⟨ob, rfl, hobrec, hobop', ?_, rfl⟩
          intro b hb hbop
          exact hfacts.2 b ((mem_sortBoxes _ b).mpr
            (List.mem_filter.mpr ⟨hb, by rw [hbop]; rfl⟩))
        · intro _ hall
          rw [hall ob hobrec] at hobop
          simp at hobop
      next hl =>
        have hcands : recs.filter (fun b => !b.closed) = [] :=
          (sortBoxes_eq_nil _).mp (List.getLast?_eq_none_iff.mp hl)
        refine ⟨?_, sorted_sortBoxes _, fun he => absurd he hre, ?_, ?_⟩
        · intro b
          rw [mem_sortBoxes, List.mem_filter]
        · intro b0 hb0 hb0op
          exfalso
          have : b0 ∈ recs.filter (fun b => !b.closed) :=
            List.mem_filter.mpr ⟨hb0, by rw [hb0op]; rfl⟩
          rw [hcands] at this
          simp at this
        · intro _ _
          refine ⟨rfl, ?_, ?_, ?_⟩
          · rw [diskGet_saveBoxD, if_pos rfl]
          · intro k hk
            rw [diskGet_saveBoxD, if_neg (by dsimp only; omega)]
          · intro b hb
            have := le_maxId recs b hb
            omega

/-- Witness for C3: one open record among closed ones selects the largest-id
open record and leaves the disk unchanged. -/
theorem load_boxes_reconstruction_witness :
    ((⟨2, false, []⟩ : Box) ∈ c3Recs ∧ (⟨2, false, []⟩ : Box).closed = false) ∧
    (∃ ob, (load_boxes c3Recs).1.2 = some ob ∧ ob ∈ c3Recs ∧ ob.closed = false ∧
       (∀ b ∈ c3Recs, b.closed = false → b.id ≤ ob.id) ∧
       (load_boxes c3Recs).2 = c3Recs) :=
  ⟨⟨by decide, by decide⟩,
   (load_boxes_reconstruction c3Recs).2.2.2.1 ⟨2, false, []⟩ (by decide) (by decide)⟩

/-! ## Dictionary and index-fold helpers -/

lemma dictGet_dictSet (k k' : String) (v : Item) (m : List (String × Item)) :
    dictGet k (dictSet k' v m) = if k' = k then some v else dictGet k m := by
  induction m with
  | nil => simp [dictSet, dictGet]
  | cons p rest ih =>
      rcases p with ⟨pk, pv⟩
      by_cases h : pk = k'
      · subst h
        by_cases hk : pk = k <;> simp [dictSet, dictGet, hk]
      · by_cases hpk : pk = k
        · have hk' : ¬ k' = k := fun hh => h (hpk.trans hh.symm)
          have hkk' : ¬ k = k' := fun hh => hk' hh.symm
          simp [dictSet, dictGet, h, hpk, hk', hkk']
        · simp [dictSet, dictGet, h, hpk, ih]

lemma dictGet_itemFold (l : List Item) (acc : List (String × Item) × List String)
    (k : String) (h : ∀ x ∈ l, x.id ≠ k) :
    dictGet k (l.foldl (fun acc2 it =>
      (dictSet it.id it acc2.1,
       if it.approved then acc2.2 ++ [it.id] else acc2.2)) acc).1 =
      dictGet k acc.1 := by
  induction l generalizing acc with
  | nil => rfl
  | cons a as ih =>
      rw [List.foldl_cons, ih _ (fun x hx => h x (List.mem_cons_of_mem a hx))]
      dsimp only
      rw [dictGet_dictSet, if_neg (h a (List.mem_cons_self a as))]

lemma dictGet_boxFold (bs : List Box) (acc : List (String × Item) × List String)
    (k : String) (h : ∀ b ∈ bs, ∀ x ∈ b.items, x.id ≠ k) :
    dictGet k (bs.foldl (fun acc b => b.items.foldl (fun acc2 it =>
      (dictSet it.id it acc2.1,
       if it.approved then acc2.2 ++ [it.id] else acc2.2)) acc) acc).1 =
      dictGet k acc.1 := by
  induction bs generalizing acc with
  | nil => rfl
  | cons b rest ih =>
      rw [List.foldl_cons, ih _ (fun bb hb => h bb (List.mem_cons_of_mem b hb))]
      exact dictGet_itemFold b.items acc k (h b (List.mem_cons_self b rest))

lemma dictGet_rejFold (l : List Item) (m : List (String × Item)) (k : String)
    (h : ∀ x ∈ l, x.id ≠ k) :
    dictGet k (l.foldl (fun mm it => dictSet it.id it mm) m) = dictGet k m := by
  induction l generalizing m with
  | nil => rfl
  | cons a as ih =>
      rw [List.foldl_cons, ih _ (fun x hx => h x (List.mem_cons_of_mem a hx)),
          dictGet_dictSet, if_neg (h a (List.mem_cons_self a as))]

lemma mem_itemFold_snd (l : List Item) (acc : List (String × Item) × List String)
    (k : String)
    (hk : k ∈ (l.foldl (fun acc2 it =>
      (dictSet it.id it acc2.1,
       if it.approved then acc2.2 ++ [it.id] else acc2.2)) acc).2) :
    k ∈ acc.2 ∨ ∃ x ∈ l, x.id = k := by
  induction l generalizing acc with
  | nil => exact Or.inl hk
  | cons a as ih =>
      rw [List.foldl_cons] at hk
      rcases ih _ hk with h1 | h2
      · dsimp only at h1
        by_cases hap : a.approved = true
        · rw [if_pos hap] at h1
          rcases List.mem_append.mp h1 with h | h
          · exact Or.inl h
          · exact Or.inr ⟨a, List.mem_cons_self a as, (List.mem_singleton.mp h).symm⟩
        · rw [if_neg hap] at h1
          exact Or.inl h1
      · obtain ⟨x, hx, hxk⟩ := h2
        exact Or.inr ⟨x, List.mem_cons_of_mem a hx, hxk⟩

lemma mem_boxFold_snd (bs : List Box) (acc : List (String × Item) × List String)
    (k : String)
    (hk : k ∈ (bs.foldl (fun acc b => b.items.foldl (fun acc2 it =>
      (dictSet it.id it acc2.1,
       if it.approved then acc2.2 ++ [it.id] else acc2.2)) acc) acc).2) :
    k ∈ acc.2 ∨ ∃ b ∈ bs, ∃ x ∈ b.items, x.id = k := by
  induction bs generalizing acc with
  | nil => exact Or.inl hk
  | cons b rest ih =>
      rw [List.foldl_cons] at hk
      rcases ih _ hk with h1 | h2
      · rcases mem_itemFold_snd b.items acc k h1 with h | ⟨x, hx, hxk⟩
        · exact Or.inl h
        · exact Or.inr ⟨b, List.mem_cons_self b rest, x, hx, hxk⟩
      · obtain ⟨bb, hbb, x, hx, hxk⟩ := h2
        exact Or.inr ⟨bb, List.mem_cons_of_mem b hbb, x, hx, hxk⟩

lemma load_boxes_open_case (recs : List Box) (b0 : Box)
    (h0 : b0 ∈ recs) (h0op : b0.closed = false) :
    ∃ ob, load_boxes recs = ((sortBoxes (recs.filter (fun b => b.closed)), some ob), recs) ∧
      ob ∈ recs ∧ ob.closed = false ∧
      (∀ b ∈ recs, b.closed = false → b.id ≤ ob.id) := by
  have hne : recs ≠ [] := by
    intro h
    subst h
    simp at h0
  have hcond : ¬ (recs.isEmpty = true) := by
    intro h
    exact hne (List.isEmpty_iff.mp h)
  have hb0c : b0 ∈ recs.filter (fun b => !b.closed) :=
    List.mem_filter.mpr ⟨h0, by rw [h0op]; rfl⟩
  cases hl : (sortBoxes (recs.filter (fun b => !b.closed))).getLast? with
  | none =>
      exfalso
      have := (sortBoxes_eq_nil _).mp (List.getLast?_eq_none_iff.mp hl)
      rw [this] at hb0c
      simp [(sortBoxes_eq_nil _).mp (List.getLast?_eq_none_iff.mp hl)] at hb0c
  | some ob =>
      have hfacts := getLast?_mem_max _ ob (sorted_sortBoxes _) hl
      have hcand : ob ∈ recs.filter (fun b => !b.closed) :=
        (mem_sortBoxes _ ob).mp hfacts.1
      rcases List.mem_filter.mp hcand with ⟨hobrec, hobop⟩
      have hobop' : ob.closed = false := by
        cases hcl : ob.closed
        · rfl
        · rw [hcl] at hobop; simp at hobop
      refine ⟨ob, ?_, hobrec, hobop', ?_⟩
      · unfold load_boxes
        rw [if_neg hcond]
        dsimp only
        rw [hl]
      · intro b hb hbop
        exact hfacts.2 b ((mem_sortBoxes _ b).mpr
          (List.mem_filter.mpr ⟨hb, by rw [hbop]; rfl⟩))

/-! ## C4: demoted open candidates are dropped, not indexed -/

/-- C4 counterexample: records box 1 (open, holding approved item "x") and
box 2 (open, empty).  Reconstruction treats box 2 as open and drops box 1
entirely: item "x" is absent from the rebuilt id→item index and from the
approved order, contradicting the claim that the demoted box's items are
indexed like those of a closed box. -/
theorem load_state_demoted_counterexample :
    (⟨1, false, [c4Item]⟩ : Box) ∈ c4Disk.boxes ∧
    (⟨1, false, [c4Item]⟩ : Box).closed = false ∧
    (⟨2, false, []⟩ : Box) ∈ c4Disk.boxes ∧
    c4Item.approved = true ∧
    ((load_state c4Disk).1).isSome = true ∧
    ((load_state c4Disk).1.bind (fun s => dictGet c4Item.id s.items)) = none ∧
    ((load_state c4Disk).1.map (fun s => decide (c4Item.id ∈ s.approved_ids))) =
      some false := by
  decide

/-- C4 (amended): when two or more persisted records have `closed = false`,
only the largest-id one is treated as open; each other such record is
dropped from the reconstructed state entirely — it is neither the open box
nor in the closed collection, and (when no kept box or reject record reuses
the same item id) its items are absent from the id→item index and from the
approved order — while its stored record on disk is left uncorrected. -/
theorem load_boxes_demoted_dropped (recs : List Box) (b : Box)
    (hb : b ∈ recs) (hbop : b.closed = false)
    (hnotmax : ∃ b2 ∈ recs, b2.closed = false ∧ b.id < b2.id) :
    (load_boxes recs).2 = recs ∧
    b ∉ (load_boxes recs).1.1 ∧
    (∀ ob, (load_boxes recs).1.2 = some ob → b.id < ob.id) ∧
    (∀ d : Disk, d.boxes = recs → ∀ s, (load_state d).1 = some s →
       ∀ x ∈ b.items,
         (∀ b2 ∈ s.closed_boxes, ∀ y ∈ b2.items, y.id ≠ x.id) →
         (∀ y ∈ s.open_box.items, y.id ≠ x.id) →
         (∀ y ∈ d.rejects, y.id ≠ x.id) →
         dictGet x.id s.items = none ∧ x.id ∉ s.approved_ids) := by
  obtain ⟨b2, hb2, hb2op, hlt⟩ := hnotmax
  obtain ⟨ob, heq, hobrec, hobop, hmax⟩ := load_boxes_open_case recs b2 hb2 hb2op
  have hbo : b.id < ob.id := lt_of_lt_of_le hlt (hmax b2 hb2 hb2op)
  refine ⟨by rw [heq], ?_, ?_, ?_⟩
  · rw [heq]
    intro hmem
    have hkeep := (mem_sortBoxes _ b).mp hmem
    rcases List.mem_filter.mp hkeep with ⟨_, hclb⟩
    rw [hbop] at hclb
    simp at hclb
  · intro ob' hob'
    rw [heq] at hob'
    injection hob' with hh
    exact hh ▸ hbo
  · intro d hd s hs x hx hclo hop hrej
    unfold load_state at hs
    rw [hd, heq] at hs
    dsimp only at hs
    injection hs with hs
    subst hs
    constructor
    · show dictGet x.id (d.rejects.foldl (fun m it => dictSet it.id it m) _) = none
      rw [dictGet_rejFold _ _ _ hrej]
      unfold indexBoxes
      rw [dictGet_boxFold]
      · rfl
      · intro b2' hb2' y hy
        rcases List.mem_append.mp hb2' with h | h
        · exact hclo b2' h y hy
        · rw [List.mem_singleton] at h
          subst h
          exact hop y hy
    · intro hmem
      unfold indexBoxes at hmem
      rcases mem_boxFold_snd _ _ _ hmem with h | ⟨b2', hb2', y, hy, hyk⟩
      · simp at h
      · rcases List.mem_append.mp hb2' with h | h
        · exact (hclo b2' h y hy) hyk
        · rw [List.mem_singleton] at h
          subst h
          exact (hop y hy) hyk

/-- Witness for the amended C4 at the concrete two-open-records disk. -/
theorem load_boxes_demoted_dropped_witness :
    ((⟨1, false, [c4Item]⟩ : Box) ∈ c4Disk.boxes ∧
     (⟨1, false, [c4Item]⟩ : Box).closed = false ∧
     (∃ b2 ∈ c4Disk.boxes, b2.closed = false ∧ (⟨1, false, [c4Item]⟩ : Box).id < b2.id)) ∧
    ((load_boxes c4Disk.boxes).2 = c4Disk.boxes ∧
     (⟨1, false, [c4Item]⟩ : Box) ∉ (load_boxes c4Disk.boxes).1.1) :=
  ⟨⟨by decide, by decide, by decide⟩,
   ⟨(load_boxes_demoted_dropped c4Disk.boxes ⟨1, false, [c4Item]⟩ (by decide) (by decide)
       (by decide)).1,
    (load_boxes_demoted_dropped c4Disk.boxes ⟨1, false, [c4Item]⟩ (by decide) (by decide)
       (by decide)).2.1⟩⟩

/-! ## C5: removal from a closed box -/

lemma removeFromClosed_spec (it : Item) (bs : List Box) (d : Disk)
    (h : ∃ b ∈ bs, it ∈ b.items) :
    ∃ pre b suf, bs = pre ++ b :: suf ∧ it ∈ b.items ∧
      (∀ c ∈ pre, it ∉ c.items) ∧
      (removeFromClosed it bs d).1 =
        pre ++ ({ b with items := eraseFirst it b.items }) :: suf ∧
      (removeFromClosed it bs d).2 =
        save_box { b with items := eraseFirst it b.items } d := by
  induction bs with
  | nil => simp at h
  | cons b0 rest ih =>
      by_cases hin : it ∈ b0.items
      · refine ⟨[], b0, rest, rfl, hin, by simp, ?_, ?_⟩
        · unfold removeFromClosed
          rw [if_pos hin]
          simp
        · unfold removeFromClosed
          rw [if_pos hin]
      · have h' : ∃ b ∈ rest, it ∈ b.items := by
          obtain ⟨b, hb, hbit⟩ := h
          rcases List.mem_cons.mp hb with rfl | hb'
          · exact absurd hbit hin
          · exact ⟨b, hb', hbit⟩
        obtain ⟨pre, b, suf, hsplit, hbit, hpre, h1, h2⟩ := ih h'
        refine ⟨b0 :: pre, b, suf, by rw [List.cons_append, hsplit], hbit, ?_, ?_, ?_⟩
        · intro c hc
          rcases List.mem_cons.mp hc with rfl | hc'
          · exact hin
          · exact hpre c hc'
        · unfold removeFromClosed
          rw [if_neg hin]
          simp [h1]
        · unfold removeFromClosed
          rw [if_neg hin]
          simp [h2]

/-- C5: removing an approved item that is not in the open box searches the
closed boxes in order, removes the item from the first box containing it,
persists that box, leaves its closed flag unchanged, leaves the open box
untouched, and never flips any box's closed flag. -/
theorem remove_item_closed_box (id : String) (s : St) (d : Disk) (it : Item)
    (hget : dictGet id s.items = some it)
    (happ : it.approved = true)
    (hnotopen : it ∉ s.open_box.items)
    (hin : ∃ b ∈ s.closed_boxes, it ∈ b.items) :
    ∃ pre b suf,
      s.closed_boxes = pre ++ b :: suf ∧ it ∈ b.items ∧
      (∀ c ∈ pre, it ∉ c.items) ∧
      (remove_item id s d).1.closed_boxes =
        pre ++ ({ b with items := eraseFirst it b.items }) :: suf ∧
      (remove_item id s d).2 = save_box { b with items := eraseFirst it b.items } d ∧
      ({ b with items := eraseFirst it b.items }).closed = b.closed ∧
      (remove_item id s d).1.open_box = s.open_box ∧
      (remove_item id s d).1.closed_boxes.map Box.closed =
        s.closed_boxes.map Box.closed := by
  obtain ⟨pre, b, suf, hsplit, hbit, hpre, h1, h2⟩ :=
    removeFromClosed_spec it s.closed_boxes d hin
  unfold remove_item
  rw [hget]
  dsimp only
  rw [if_pos happ, if_neg hnotopen]
  dsimp only
  split <;>
    exact ⟨pre, b, suf, hsplit, hbit, hpre, h1, h2, rfl, rfl, by
      show (removeFromClosed it s.closed_boxes d).1.map Box.closed =
        s.closed_boxes.map Box.closed
      rw [h1, hsplit]
      simp⟩

/-- Witness for C5 at a concrete state with the item in closed box 1. -/
theorem remove_item_closed_box_witness :
    dictGet "q1" c5St.items = some c5Item ∧
    c5Item.approved = true ∧
    c5Item ∉ c5St.open_box.items ∧
    (∃ b ∈ c5St.closed_boxes, c5Item ∈ b.items) ∧
    (∃ pre b suf,
      c5St.closed_boxes = pre ++ b :: suf ∧ c5Item ∈ b.items ∧
      (∀ c ∈ pre, c5Item ∉ c.items) ∧
      (remove_item "q1" c5St c5Disk).1.closed_boxes =
        pre ++ ({ b with items := eraseFirst c5Item b.items }) :: suf ∧
      (remove_item "q1" c5St c5Disk).2 =
        save_box { b with items := eraseFirst c5Item b.items } c5Disk ∧
      ({ b with items := eraseFirst c5Item b.items }).closed = b.closed ∧
      (remove_item "q1" c5St c5Disk).1.open_box = c5St.open_box ∧
      (remove_item "q1" c5St c5Disk).1.closed_boxes.map Box.closed =
        c5St.closed_boxes.map Box.closed) :=
  ⟨by decide, by decide, by decide, by decide,
   remove_item_closed_box "q1" c5St c5Disk c5Item
     (by decide) (by decide) (by decide) (by decide)⟩

/-! ## C8: reconstruction is idempotent -/

lemma saveBoxD_append (b : Box) (l : List Box) (h : ∀ x ∈ l, x.id < b.id) :
    saveBoxD b l = l ++ [b] := by
  induction l with
  | nil => rfl
  | cons c cs ih =>
      unfold saveBoxD
      have hc := h c (List.mem_cons_self c cs)
      rw [if_neg (by omega), if_neg (by omega),
          ih (fun x hx => h x (List.mem_cons_of_mem c hx))]
      rfl

/-- C8: running `load_state` a second time over the records the first run
leaves on disk yields the same indexes and the same disk. -/
theorem load_state_idempotent (d : Disk) :
    load_state ((load_state d).2) = ((load_state d).1, (load_state d).2) := by
  rcases d with ⟨recs, rejs⟩
  by_cases hre : recs = []
  · subst hre
    rfl
  · by_cases hop : ∃ b ∈ recs, b.closed = false
    · obtain ⟨b0, hb0, hb0op⟩ := hop
      obtain ⟨ob, heq, _, _, _⟩ := load_boxes_open_case recs b0 hb0 hb0op
      have h2 : (load_state ⟨recs, rejs⟩).2 = ⟨recs, rejs⟩ := by
        unfold load_state
        rw [heq]
      rw [h2]
      exact Prod.ext rfl h2
    · have hall : ∀ b ∈ recs, b.closed = true := by
        intro b hb
        cases hcl : b.closed
        · exact absurd ⟨b, hb, hcl⟩ hop
        · rfl
      have hcands : recs.filter (fun b => !b.closed) = [] :=
        List.filter_eq_nil_iff.mpr (fun b hb => by rw [hall b hb]; simp)
      have hlt : ∀ x ∈ recs, x.id < (⟨maxId recs + 1, false, []⟩ : Box).id := by
        intro x hx
        have := le_maxId recs x hx
        dsimp only
        omega
      have hsave : saveBoxD (⟨maxId recs + 1, false, []⟩ : Box) recs =
          recs ++ [⟨maxId recs + 1, false, []⟩] := saveBoxD_append _ recs hlt
      have hcond1 : ¬ (recs.isEmpty = true) := by
        intro h
        exact hre (List.isEmpty_iff.mp h)
      have heq1 : load_boxes recs =
          ((sortBoxes (recs.filter (fun b => b.closed)),
            some ⟨maxId recs + 1, false, []⟩),
           saveBoxD (⟨maxId recs + 1, false, []⟩ : Box) recs) := by
        unfold load_boxes
        rw [if_neg hcond1]
        dsimp only
        rw [hcands]
        rfl
      have hcond2 : ¬ ((saveBoxD (⟨maxId recs + 1, false, []⟩ : Box) recs).isEmpty = true) := by
        rw [hsave]
        intro h
        have := List.isEmpty_iff.mp h
        cases recs <;> simp_all
      have hfil1 : (saveBoxD (⟨maxId recs + 1, false, []⟩ : Box) recs).filter
          (fun b => !b.closed) = [⟨maxId recs + 1, false, []⟩] := by
        rw [hsave, List.filter_append, hcands]
        rfl
      have hfil2 : (saveBoxD (⟨maxId recs + 1, false, []⟩ : Box) recs).filter
          (fun b => b.closed) = recs.filter (fun b => b.closed) := by
        rw [hsave, List.filter_append]
        simp
      have heq2 : load_boxes (saveBoxD (⟨maxId recs + 1, false, []⟩ : Box) recs) =
          ((sortBoxes (recs.filter (fun b => b.closed)),
            some ⟨maxId recs + 1, false, []⟩),
           saveBoxD (⟨maxId recs + 1, false, []⟩ : Box) recs) := by
        unfold load_boxes
        rw [if_neg hcond2]
        dsimp only
        rw [hfil1, hfil2]
        rfl
      have e1 : load_state ⟨recs, rejs⟩ =
          (some ⟨rejs.foldl (fun m it => dictSet it.id it m)
                  (indexBoxes (sortBoxes (recs.filter (fun b => b.closed)) ++
                    [⟨maxId recs + 1, false, []⟩])).1,
                (indexBoxes (sortBoxes (recs.filter (fun b => b.closed)) ++
                  [⟨maxId recs + 1, false, []⟩])).2,
                rejs.map (fun it => it.id),
                sortBoxes (recs.filter (fun b => b.closed)),
                ⟨maxId recs + 1, false, []⟩⟩,
           ⟨saveBoxD (⟨maxId recs + 1, false, []⟩ : Box) recs, rejs⟩) := by
        unfold load_state
        rw [heq1]
      have e2 : load_state ⟨saveBoxD (⟨maxId recs + 1, false, []⟩ : Box) recs, rejs⟩ =
          (some ⟨rejs.foldl (fun m it => dictSet it.id it m)
                  (indexBoxes (sortBoxes (recs.filter (fun b => b.closed)) ++
                    [⟨maxId recs + 1, false, []⟩])).1,
                (indexBoxes (sortBoxes (recs.filter (fun b => b.closed)) ++
                  [⟨maxId recs + 1, false, []⟩])).2,
                rejs.map (fun it => it.id),
                sortBoxes (recs.filter (fun b => b.closed)),
                ⟨maxId recs + 1, false, []⟩⟩,
           ⟨saveBoxD (⟨maxId recs + 1, false, []⟩ : Box) recs, rejs⟩) := by
        unfold load_state
        rw [heq2]
      rw [e1, e2]

/-! ## Helpers for the system invariant (C7) -/

lemma mem_eraseFirst_of_ne {α : Type} [DecidableEq α] (x y : α) (l : List α)
    (h : x ≠ y) : x ∈ eraseFirst y l ↔ x ∈ l := by
  induction l with
  | nil => simp [eraseFirst]
  | cons a as ih =>
      unfold eraseFirst
      by_cases ha : a = y
      · rw [if_pos ha]
        subst ha
        simp [List.mem_cons, h]
      · rw [if_neg ha]
        simp [List.mem_cons, ih]

lemma mem_of_mem_eraseFirst {α : Type} [DecidableEq α] (x y : α) (l : List α)
    (h : x ∈ eraseFirst y l) : x ∈ l := by
  induction l with
  | nil => simpa [eraseFirst] using h
  | cons a as ih =>
      unfold eraseFirst at h
      by_cases ha : a = y
      · rw [if_pos ha] at h
        exact List.mem_cons_of_mem a h
      · rw [if_neg ha] at h
        rcases List.mem_cons.mp h with rfl | h'
        · exact List.mem_cons_self _ _
        · exact List.mem_cons_of_mem a (ih h')

lemma not_mem_eraseFirst_self {α : Type} [DecidableEq α] (x : α) (l : List α)
    (h : l.Nodup) : x ∉ eraseFirst x l := by
  induction l with
  | nil => simp [eraseFirst]
  | cons a as ih =>
      rcases List.nodup_cons.mp h with ⟨hna, hnd⟩
      unfold eraseFirst
      by_cases ha : a = x
      · rw [if_pos ha]
        subst ha
        exact hna
      · rw [if_neg ha]
        intro hmem
        rcases List.mem_cons.mp hmem with rfl | h'
        · exact ha rfl
        · exact ih hnd h'

lemma dictGet_dictDel_ne (k k' : String) (m : List (String × Item)) (h : k' ≠ k) :
    dictGet k (dictDel k' m) = dictGet k m := by
  induction m with
  | nil => rfl
  | cons p rest ih =>
      rcases p with ⟨pk, pv⟩
      unfold dictDel
      by_cases hp : pk = k'
      · rw [if_pos hp]
        rw [show dictGet k ((pk, pv) :: rest) =
              if pk = k then some pv else dictGet k rest from rfl]
        rw [if_neg (by rw [hp]; exact h)]
      · rw [if_neg hp]
        unfold dictGet
        by_cases hk : pk = k
        · rw [if_pos hk, if_pos hk]
        · rw [if_neg hk, if_neg hk, ih]

lemma boxCount_eq (x : Item) (s : St) :
    boxCount x s = s.closed_boxes.countP (fun b => decide (x ∈ b.items)) +
      (if x ∈ s.open_box.items then 1 else 0) := by
  unfold boxCount allBoxes
  rw [List.countP_append]
  simp [List.countP_cons]

lemma store_item_frame (it : Item) (s : St) (d : Disk) :
    (store_item it s d).1.items = s.items ∧
    (store_item it s d).1.approved_ids = s.approved_ids ∧
    (store_item it s d).1.rejected_ids = s.rejected_ids := by
  unfold store_item
  dsimp only
  split <;> exact ⟨rfl, rfl, rfl⟩

lemma boxCount_store (x it : Item) (s : St) (d : Disk) (hne : x ≠ it) :
    boxCount x (store_item it s d).1 = boxCount x s := by
  unfold store_item
  dsimp only
  split
  · rw [boxCount_eq, boxCount_eq]
    dsimp only
    rw [List.countP_append]
    have hmem : (x ∈ s.open_box.items ++ [it]) ↔ x ∈ s.open_box.items := by
      simp [hne]
    simp [List.countP_cons, hmem]
  · rw [boxCount_eq, boxCount_eq]
    dsimp only
    have hmem : (x ∈ s.open_box.items ++ [it]) ↔ x ∈ s.open_box.items := by
      simp [hne]
    simp [hmem]

lemma boxCount_store_self (it : Item) (s : St) (d : Disk)
    (h : ∀ b ∈ allBoxes s, it ∉ b.items) :
    boxCount it (store_item it s d).1 = 1 := by
  have hcl : s.closed_boxes.countP (fun b => decide (it ∈ b.items)) = 0 := by
    rw [List.countP_eq_zero]
    intro b hb
    simp [h b (by unfold allBoxes; exact List.mem_append_left _ hb)]
  have hop : it ∉ s.open_box.items :=
    h s.open_box (by unfold allBoxes; simp)
  unfold store_item
  dsimp only
  split
  · rw [boxCount_eq]
    dsimp only
    rw [List.countP_append, hcl]
    simp [List.countP_cons, hop]
  · rw [boxCount_eq]
    dsimp only
    rw [hcl]
    simp [hop]

lemma store_boxes_items (it : Item) (s : St) (d : Disk) (b : Box)
    (hb : b ∈ allBoxes (store_item it s d).1) (x : Item) (hx : x ∈ b.items) :
    (∃ bb ∈ allBoxes s, x ∈ bb.items) ∨ x = it := by
  unfold store_item at hb
  dsimp only at hb
  unfold allBoxes at hb ⊢
  split at hb
  · dsimp only at hb
    rcases List.mem_append.mp hb with hb1 | hb2
    · rcases List.mem_append.mp hb1 with hcl | hoc
      · exact Or.inl ⟨b, List.mem_append_left _ hcl, hx⟩
      · rw [List.mem_singleton] at hoc
        subst hoc
        rcases List.mem_append.mp hx with h | h
        · exact Or.inl ⟨s.open_box, List.mem_append_right _ (by simp), h⟩
        · exact Or.inr (List.mem_singleton.mp h)
    · rw [List.mem_singleton] at hb2
      subst hb2
      simp at hx
  · dsimp only at hb
    rcases List.mem_append.mp hb with hcl | hoc
    · exact Or.inl ⟨b, List.mem_append_left _ hcl, hx⟩
    · rw [List.mem_singleton] at hoc
      subst hoc
      rcases List.mem_append.mp hx with h | h
      · exact Or.inl ⟨s.open_box, List.mem_append_right _ (by simp), h⟩
      · exact Or.inr (List.mem_singleton.mp h)

lemma countP_removeFromClosed (x it : Item) (bs : List Box) (d : Disk)
    (hne : x ≠ it) :
    ((removeFromClosed it bs d).1).countP (fun b => decide (x ∈ b.items)) =
      bs.countP (fun b => decide (x ∈ b.items)) := by
  induction bs with
  | nil => rfl
  | cons b rest ih =>
      unfold removeFromClosed
      by_cases hin : it ∈ b.items
      · rw [if_pos hin]
        dsimp only
        rw [List.countP_cons, List.countP_cons]
        simp [mem_eraseFirst_of_ne x it _ hne]
      · rw [if_neg hin]
        dsimp only
        rw [List.countP_cons, List.countP_cons, ih]

lemma removeFromClosed_items_sub (it : Item) (bs : List Box) (d : Disk) :
    ∀ b' ∈ (removeFromClosed it bs d).1, ∀ x ∈ b'.items, ∃ b ∈ bs, x ∈ b.items := by
  induction bs with
  | nil =>
      intro b' h
      simp [removeFromClosed] at h
  | cons b rest ih =>
      intro b' hb' x hx
      unfold removeFromClosed at hb'
      by_cases hin : it ∈ b.items
      · rw [if_pos hin] at hb'
        dsimp only at hb'
        rcases List.mem_cons.mp hb' with rfl | h'
        · exact ⟨b, List.mem_cons_self _ _, mem_of_mem_eraseFirst x it _ hx⟩
        · exact ⟨b', List.mem_cons_of_mem b h', hx⟩
      · rw [if_neg hin] at hb'
        dsimp only at hb'
        rcases List.mem_cons.mp hb' with rfl | h'
        · exact ⟨b', List.mem_cons_self _ _, hx⟩
        · obtain ⟨bb, hbb, hxx⟩ := ih b' h' x hx
          exact ⟨bb, List.mem_cons_of_mem b hbb, hxx⟩

lemma evaluate_item_fields (it : Item) :
    (evaluate_item it).id = it.id ∧ (evaluate_item it).weight = it.weight ∧
    (evaluate_item it).color = it.color ∧ (evaluate_item it).length = it.length := by
  rw [evaluate_item_eq]
  exact ⟨rfl, rfl, rfl, rfl⟩

lemma SysInv_store_general (s2 : St) (d : Disk) (it : Item)
    (hfresh : ∀ b ∈ allBoxes s2, it ∉ b.items)
    (hA2 : ∀ id2 ∈ s2.approved_ids,
        ∃ x, dictGet id2 s2.items = some x ∧ x.approved = true ∧
          (x = it ∨ (x ≠ it ∧ boxCount x s2 = 1)))
    (hR2 : ∀ id2 ∈ s2.rejected_ids,
        ∃ x, dictGet id2 s2.items = some x ∧ x.approved = false)
    (hC2 : ∀ id2 ∈ s2.rejected_ids, ∀ b ∈ allBoxes s2, ∀ x ∈ b.items, x.id ≠ id2)
    (hCit : ∀ id2 ∈ s2.rejected_ids, it.id ≠ id2) :
    SysInv (store_item it s2 d).1 := by
  obtain ⟨f1, f2, f3⟩ := store_item_frame it s2 d
  refine ⟨?_, ?_, ?_⟩
  · intro id2 hid2
    rw [f2] at hid2
    obtain ⟨x, hx, hxap, hxc⟩ := hA2 id2 hid2
    refine ⟨x, by rw [f1]; exact hx, hxap, ?_⟩
    rcases hxc with rfl | ⟨hne, hcount⟩
    · exact boxCount_store_self x s2 d hfresh
    · rw [boxCount_store x it s2 d hne]
      exact hcount
  · intro id2 hid2
    rw [f3] at hid2
    obtain ⟨x, hx, hxap⟩ := hR2 id2 hid2
    exact ⟨x, by rw [f1]; exact hx, hxap⟩
  · intro id2 hid2 b hb x hx
    rw [f3] at hid2
    rcases store_boxes_items it s2 d b hb x hx with ⟨bb, hbb, hxx⟩ | rfl
    · exact hC2 id2 hid2 bb hbb x hxx
    · exact hCit id2 hid2

lemma SysInv_remove_approved (s p1 : St) (id : String) (it : Item)
    (hkeys : ∀ k x, dictGet k s.items = some x → x.id = k)
    (hapnd : s.approved_ids.Nodup)
    (hA : ∀ id2 ∈ s.approved_ids, ∃ x, dictGet id2 s.items = some x ∧
        x.approved = true ∧ boxCount x s = 1)
    (hR : ∀ id2 ∈ s.rejected_ids, ∃ x, dictGet id2 s.items = some x ∧
        x.approved = false)
    (hC : ∀ id2 ∈ s.rejected_ids, ∀ b ∈ allBoxes s, ∀ x ∈ b.items, x.id ≠ id2)
    (hget : dictGet id s.items = some it)
    (happ : it.approved = true)
    (hp_items : p1.items = s.items)
    (hp_ap : p1.approved_ids = s.approved_ids)
    (hp_rej : p1.rejected_ids = s.rejected_ids)
    (hp_count : ∀ x, x ≠ it → boxCount x p1 = boxCount x s)
    (hp_sub : ∀ b ∈ allBoxes p1, ∀ x ∈ b.items, ∃ bb ∈ allBoxes s, x ∈ bb.items) :
    SysInv { (if id ∈ p1.approved_ids then
        { p1 with approved_ids := eraseFirst id p1.approved_ids } else p1) with
      items := dictDel id (if id ∈ p1.approved_ids then
        { p1 with approved_ids := eraseFirst id p1.approved_ids } else p1).items } := by
  have hitid : it.id = id := hkeys id it hget
  have hmain : ∀ id2, id2 ∈ s.approved_ids → id2 ≠ id →
      ∃ x, dictGet id2 (dictDel id p1.items) = some x ∧ x.approved = true ∧
        boxCount x p1 = 1 := by
    intro id2 hid2 hne
    obtain ⟨x, hx, hxap, hxc⟩ := hA id2 hid2
    have hxne : x ≠ it := by
      intro hh
      subst hh
      exact hne ((hkeys id2 x hx).symm.trans hitid)
    refine ⟨x, ?_, hxap, ?_⟩
    · rw [hp_items, dictGet_dictDel_ne id2 id s.items (fun hh => hne hh.symm)]
      exact hx
    · rw [hp_count x hxne]
      exact hxc
  have hrejne : ∀ id2, id2 ∈ s.rejected_ids → id2 ≠ id := by
    intro id2 hid2 hh
    subst hh
    obtain ⟨x, hx, hxap⟩ := hR id2 hid2
    rw [hget] at hx
    injection hx with hx
    rw [← hx] at hxap
    simp [happ] at hxap
  have hrej : ∀ id2, id2 ∈ s.rejected_ids →
      ∃ x, dictGet id2 (dictDel id p1.items) = some x ∧ x.approved = false := by
    intro id2 hid2
    obtain ⟨x, hx, hxap⟩ := hR id2 hid2
    refine ⟨x, ?_, hxap⟩
    rw [hp_items, dictGet_dictDel_ne id2 id s.items
        (fun hh => (hrejne id2 hid2) hh.symm)]
    exact hx
  by_cases hida : id ∈ p1.approved_ids
  · rw [if_pos hida]
    refine ⟨?_, ?_, ?_⟩
    · intro id2 hid2
      have hid2p : id2 ∈ eraseFirst id p1.approved_ids := hid2
      have hid2' : id2 ∈ s.approved_ids := by
        have h := mem_of_mem_eraseFirst id2 id p1.approved_ids hid2p
        rw [hp_ap] at h
        exact h
      have hne : id2 ≠ id := by
        intro hh
        subst hh
        have hnd : p1.approved_ids.Nodup := by rw [hp_ap]; exact hapnd
        exact not_mem_eraseFirst_self id2 p1.approved_ids hnd hid2p
      exact hmain id2 hid2' hne
    · intro id2 hid2
      have hid2' : id2 ∈ s.rejected_ids := by
        have h : id2 ∈ p1.rejected_ids := hid2
        rw [hp_rej] at h
        exact h
      exact hrej id2 hid2'
    · intro id2 hid2 b hb x hx
      have hid2' : id2 ∈ s.rejected_ids := by
        have h : id2 ∈ p1.rejected_ids := hid2
        rw [hp_rej] at h
        exact h
      have hb' : b ∈ allBoxes p1 := hb
      obtain ⟨bb, hbb, hxx⟩ := hp_sub b hb' x hx
      exact hC id2 hid2' bb hbb x hxx
  · rw [if_neg hida]
    refine ⟨?_, ?_, ?_⟩
    · intro id2 hid2
      have hid2p : id2 ∈ p1.approved_ids := hid2
      have hid2' : id2 ∈ s.approved_ids := by rw [← hp_ap]; exact hid2p
      have hne : id2 ≠ id := by
        intro hh
        subst hh
        exact hida hid2p
      exact hmain id2 hid2' hne
    · intro id2 hid2
      have hid2' : id2 ∈ s.rejected_ids := by
        have h : id2 ∈ p1.rejected_ids := hid2
        rw [hp_rej] at h
        exact h
      exact hrej id2 hid2'
    · intro id2 hid2 b hb x hx
      have hid2' : id2 ∈ s.rejected_ids := by
        have h : id2 ∈ p1.rejected_ids := hid2
        rw [hp_rej] at h
        exact h
      have hb' : b ∈ allBoxes p1 := hb
      obtain ⟨bb, hbb, hxx⟩ := hp_sub b hb' x hx
      exact hC id2 hid2' bb hbb x hxx

/-- C7: every mutating operation — registration of an item, store of a fresh
approved item into a box, removal by id — preserves the §3 system-state
invariant (`SysInv`), given the basic well-formedness of the §3 data model
(`WF`: map keys match item ids, boxed items are in the map, the id orders
are duplicate-free). -/
theorem ops_preserve_invariant (s : St) (d : Disk)
    (hwf : WF s) (hinv : SysInv s) :
    (∀ id w c l, SysInv (register_item id w c l s d).1) ∧
    (∀ it, (∀ b ∈ allBoxes s, it ∉ b.items) → dictGet it.id s.items = none →
       SysInv (store_item it s d).1) ∧
    (∀ id, SysInv (remove_item id s d).1) := by
  obtain ⟨hkeys, hsub, hapnd, hrejnd⟩ := hwf
  obtain ⟨hA, hR, hC⟩ := hinv
  refine ⟨?_, ?_, ?_⟩
  · -- registration
    intro id w c l
    unfold register_item
    by_cases hid0 : id = ""
    · rw [if_pos hid0]
      exact ⟨hA, hR, hC⟩
    · rw [if_neg hid0]
      by_cases hpres : (dictGet id s.items).isSome = true
      · rw [if_pos hpres]
        exact ⟨hA, hR, hC⟩
      · rw [if_neg hpres]
        dsimp only
        have hfresh : dictGet id s.items = none := by
          cases hg : dictGet id s.items with
          | none => rfl
          | some x => rw [hg] at hpres; simp at hpres
        have hitid : (evaluate_item (Item.make id w c l)).id = id :=
          (evaluate_item_fields _).1
        have hfreshbox : ∀ b ∈ allBoxes s, ∀ x ∈ b.items,
            x ≠ evaluate_item (Item.make id w c l) := by
          intro b hb x hx hxit
          have hx1 := hsub b hb x hx
          rw [hxit, hitid, hfresh] at hx1
          simp at hx1
        by_cases happ : (evaluate_item (Item.make id w c l)).approved = true
        · rw [if_pos happ]
          apply SysInv_store_general
          · intro b hb hmem
            exact hfreshbox b hb _ hmem rfl
          · intro id2 hid2
            have hid2' : id2 ∈ s.approved_ids ++ [id] := hid2
            rcases List.mem_append.mp hid2' with hold | hnew
            · obtain ⟨x, hx, hxap, hxc⟩ := hA id2 hold
              have hne : ¬ id = id2 := by
                intro hh
                rw [← hh, hfresh] at hx
                exact Option.noConfusion hx
              refine ⟨x, ?_, hxap, Or.inr ⟨?_, ?_⟩⟩
              · show dictGet id2
                  (dictSet id (evaluate_item (Item.make id w c l)) s.items) = some x
                rw [dictGet_dictSet, if_neg hne]
                exact hx
              · intro hh
                subst hh
                exact hne (hitid.symm.trans (hkeys id2 _ hx))
              · exact hxc
            · rw [List.mem_singleton] at hnew
              subst hnew
              refine ⟨evaluate_item (Item.make id2 w c l), ?_, happ, Or.inl rfl⟩
              show dictGet id2
                (dictSet id2 (evaluate_item (Item.make id2 w c l)) s.items) = some _
              rw [dictGet_dictSet, if_pos rfl]
          · intro id2 hid2
            have hid2' : id2 ∈ s.rejected_ids := hid2
            obtain ⟨x, hx, hxap⟩ := hR id2 hid2'
            have hne : ¬ id = id2 := by
              intro hh
              rw [← hh, hfresh] at hx
              exact Option.noConfusion hx
            refine ⟨x, ?_, hxap⟩
            show dictGet id2
              (dictSet id (evaluate_item (Item.make id w c l)) s.items) = some x
            rw [dictGet_dictSet, if_neg hne]
            exact hx
          · intro id2 hid2 b hb x hx
            exact hC id2 hid2 b hb x hx
          · intro id2 hid2
            rw [hitid]
            intro hh
            obtain ⟨x, hx, _⟩ := hR id2 hid2
            rw [← hh, hfresh] at hx
            exact Option.noConfusion hx
        · rw [if_neg happ]
          dsimp only
          have happf : (evaluate_item (Item.make id w c l)).approved = false := by
            cases hg : (evaluate_item (Item.make id w c l)).approved with
            | false => rfl
            | true => exact absurd hg happ
          refine ⟨?_, ?_, ?_⟩
          · intro id2 hid2
            have hid2' : id2 ∈ s.approved_ids := hid2
            obtain ⟨x, hx, hxap, hxc⟩ := hA id2 hid2'
            have hne : ¬ id = id2 := by
              intro hh
              rw [← hh, hfresh] at hx
              exact Option.noConfusion hx
            refine ⟨x, ?_, hxap, ?_⟩
            · show dictGet id2
                (dictSet id (evaluate_item (Item.make id w c l)) s.items) = some x
              rw [dictGet_dictSet, if_neg hne]
              exact hx
            · exact hxc
          · intro id2 hid2
            have hid2' : id2 ∈ s.rejected_ids ++ [id] := hid2
            rcases List.mem_append.mp hid2' with hold | hnew
            · obtain ⟨x, hx, hxap⟩ := hR id2 hold
              have hne : ¬ id = id2 := by
                intro hh
                rw [← hh, hfresh] at hx
                exact Option.noConfusion hx
              refine ⟨x, ?_, hxap⟩
              show dictGet id2
                (dictSet id (evaluate_item (Item.make id w c l)) s.items) = some x
              rw [dictGet_dictSet, if_neg hne]
              exact hx
            · rw [List.mem_singleton] at hnew
              subst hnew
              refine ⟨evaluate_item (Item.make id2 w c l), ?_, happf⟩
              show dictGet id2
                (dictSet id2 (evaluate_item (Item.make id2 w c l)) s.items) = some _
              rw [dictGet_dictSet, if_pos rfl]
          · intro id2 hid2 b hb x hx
            have hid2' : id2 ∈ s.rejected_ids ++ [id] := hid2
            have hb' : b ∈ allBoxes s := hb
            rcases List.mem_append.mp hid2' with hold | hnew
            · exact hC id2 hold b hb' x hx
            · rw [List.mem_singleton] at hnew
              subst hnew
              intro hh
              have hx1 := hsub b hb' x hx
              rw [hh, hfresh] at hx1
              simp at hx1
  · -- store of a fresh item
    intro it hnotin hfresh
    apply SysInv_store_general
    · exact hnotin
    · intro id2 hid2
      obtain ⟨x, hx, hxap, hxc⟩ := hA id2 hid2
      refine ⟨x, hx, hxap, Or.inr ⟨?_, hxc⟩⟩
      intro hh
      subst hh
      rw [hkeys id2 x hx] at hfresh
      rw [hfresh] at hx
      exact Option.noConfusion hx
    · exact hR
    · exact hC
    · intro id2 hid2 hh
      obtain ⟨x, hx, _⟩ := hR id2 hid2
      rw [← hh, hfresh] at hx
      exact Option.noConfusion hx
  · -- removal
    intro id
    unfold remove_item
    cases hget : dictGet id s.items with
    | none => exact ⟨hA, hR, hC⟩
    | some it =>
        dsimp only
        by_cases happ : it.approved = true
        · rw [if_pos happ]
          dsimp only
          by_cases hopen : it ∈ s.open_box.items
          · rw [if_pos hopen]
            dsimp only
            apply SysInv_remove_approved s
              ({ s with open_box :=
                 { s.open_box with items := eraseFirst it s.open_box.items } })
              id it hkeys hapnd hA hR hC hget happ
            · rfl
            · rfl
            · rfl
            · intro x hx
              rw [boxCount_eq, boxCount_eq]
              dsimp only
              simp [mem_eraseFirst_of_ne x it _ hx]
            · intro b hb x hx
              have hb' : b ∈ s.closed_boxes ++
                  [{s.open_box with items := eraseFirst it s.open_box.items}] := hb
              rcases List.mem_append.mp hb' with hcl | hop
              · exact ⟨b, List.mem_append_left _ hcl, hx⟩
              · rw [List.mem_singleton] at hop
                subst hop
                exact ⟨s.open_box, List.mem_append_right _ (by simp),
                  mem_of_mem_eraseFirst x it _ hx⟩
          · rw [if_neg hopen]
            dsimp only
            apply SysInv_remove_approved s
              ({ s with closed_boxes := (removeFromClosed it s.closed_boxes d).1 })
              id it hkeys hapnd hA hR hC hget happ
            · rfl
            · rfl
            · rfl
            · intro x hx
              rw [boxCount_eq, boxCount_eq]
              dsimp only
              rw [countP_removeFromClosed x it s.closed_boxes d hx]
            · intro b hb x hx
              have hb' : b ∈ (removeFromClosed it s.closed_boxes d).1 ++
                  [s.open_box] := hb
              rcases List.mem_append.mp hb' with hcl | hop
              · obtain ⟨bb, hbb, hxx⟩ :=
                  removeFromClosed_items_sub it s.closed_boxes d b hcl x hx
                exact ⟨bb, List.mem_append_left _ hbb, hxx⟩
              · rw [List.mem_singleton] at hop
                subst hop
                exact ⟨s.open_box, List.mem_append_right _ (by simp), hx⟩
        · rw [if_neg happ]
          dsimp only
          have happf : it.approved = false := by
            cases hg : it.approved with
            | false => rfl
            | true => exact absurd hg happ
          have hapne : ∀ id2 ∈ s.approved_ids, id2 ≠ id := by
            intro id2 hid2 hh
            subst hh
            obtain ⟨x, hx, hxap, _⟩ := hA id2 hid2
            rw [hget] at hx
            injection hx with hx
            rw [← hx] at hxap
            rw [happf] at hxap
            exact Bool.noConfusion hxap
          by_cases hrid : id ∈ s.rejected_ids
          · rw [if_pos hrid]
            dsimp only
            refine ⟨?_, ?_, ?_⟩
            · intro id2 hid2
              have hid2' : id2 ∈ s.approved_ids := hid2
              obtain ⟨x, hx, hxap, hxc⟩ := hA id2 hid2'
              have hne : id2 ≠ id := hapne id2 hid2'
              refine ⟨x, ?_, hxap, ?_⟩
              · show dictGet id2 (dictDel id s.items) = some x
                rw [dictGet_dictDel_ne id2 id s.items (fun hh => hne hh.symm)]
                exact hx
              · exact hxc
            · intro id2 hid2
              have hid2e : id2 ∈ eraseFirst id s.rejected_ids := hid2
              have hid2' : id2 ∈ s.rejected_ids :=
                mem_of_mem_eraseFirst _ _ _ hid2e
              have hne : id2 ≠ id := by
                intro hh
                subst hh
                exact not_mem_eraseFirst_self id2 s.rejected_ids hrejnd hid2e
              obtain ⟨x, hx, hxap⟩ := hR id2 hid2'
              refine ⟨x, ?_, hxap⟩
              show dictGet id2 (dictDel id s.items) = some x
              rw [dictGet_dictDel_ne id2 id s.items (fun hh => hne hh.symm)]
              exact hx
            · intro id2 hid2 b hb x hx
              have hid2' : id2 ∈ s.rejected_ids :=
                mem_of_mem_eraseFirst _ _ _ hid2
              have hb' : b ∈ allBoxes s := hb
              exact hC id2 hid2' b hb' x hx
          · rw [if_neg hrid]
            dsimp only
            refine ⟨?_, ?_, ?_⟩
            · intro id2 hid2
              have hid2' : id2 ∈ s.approved_ids := hid2
              obtain ⟨x, hx, hxap, hxc⟩ := hA id2 hid2'
              have hne : id2 ≠ id := hapne id2 hid2'
              refine ⟨x, ?_, hxap, ?_⟩
              · show dictGet id2 (dictDel id s.items) = some x
                rw [dictGet_dictDel_ne id2 id s.items (fun hh => hne hh.symm)]
                exact hx
              · exact hxc
            · intro id2 hid2
              have hid2' : id2 ∈ s.rejected_ids := hid2
              have hne : id2 ≠ id := by
                intro hh
                subst hh
                exact hrid hid2'
              obtain ⟨x, hx, hxap⟩ := hR id2 hid2'
              refine ⟨x, ?_, hxap⟩
              show dictGet id2 (dictDel id s.items) = some x
              rw [dictGet_dictDel_ne id2 id s.items (fun hh => hne hh.symm)]
              exact hx
            · intro id2 hid2 b hb x hx
              have hid2' : id2 ∈ s.rejected_ids := hid2
              have hb' : b ∈ allBoxes s := hb
              exact hC id2 hid2' b hb' x hx

/-- Witness for C7 at the empty loaded state. -/
theorem ops_preserve_invariant_witness :
    WF c7St ∧ SysInv c7St ∧
    (SysInv (register_item "n1" 100 "azul" 15 c7St c7Disk).1 ∧
     SysInv (store_item c7Item c7St c7Disk).1 ∧
     SysInv (remove_item "n1" c7St c7Disk).1) := by
  have hwf : WF c7St := by
    refine ⟨?_, ?_, ?_, ?_⟩
    · intro k x h
      simp [c7St, dictGet] at h
    · intro b hb x hx
      simp [allBoxes, c7St] at hb
      subst hb
      simp at hx
    · simp [c7St]
    · simp [c7St]
  have hinv : SysInv c7St := by
    refine ⟨?_, ?_, ?_⟩
    · intro id h
      simp [c7St] at h
    · intro id h
      simp [c7St] at h
    · intro id h
      simp [c7St] at h
  have h := ops_preserve_invariant c7St c7Disk hwf hinv
  exact ⟨hwf, hinv, h.1 "n1" 100 "azul" 15,
    h.2.1 c7Item (by decide) (by decide), h.2.2 "n1"⟩
